import Mathlib

/-!
Verification development for the Windchill sealing and integrity engine
(`src/corridor/stage4_merkle.rs` and the ledger core it drives).

The visible Rust source contains the seal orchestrator guard
(`seal_frame_into_ledger`) and the audit exporter (`export_to_vault`).
The ledger core itself (`WindchillLedger`, `LedgerEntry`, `EntryType`,
`WindchillLedger::seal`) lives in `crate::corridor::types`, which is not
part of the visible sources; those definitions are modelled from the
specification (sections 3, 4.1, 4.2 and 4.3) and are marked as such.

The cryptographic hash is idealized as a free term algebra: `digest` terms
are equal exactly when they were built from the same inputs.  Constructor
injectivity of this algebra is the formal counterpart of the collision
resistance that the specification demands of the Commitment Engine
("collision and pre-image resistance required").
-/

namespace Windchill

/-- Modelled from the spec: a fixed-size cryptographic digest (section 4.1),
idealized as the free algebra of the ideal hash.  `commitOf p` is the digest
of a frame payload `p`, `combineOf a b` is `digest(concat(a, b))` for two
digests `a` and `b`, and `genesis` is the fixed genesis constant used as the
previous root of the first entry.  Equality of digests is decidable and two
digests are equal exactly when they hash the same data: this injectivity is
the idealization of the collision resistance the spec requires. -/
inductive Digest where
  | genesis : Digest
  | commitOf (payload : List Nat) : Digest
  | combineOf (a b : Digest) : Digest
deriving DecidableEq, Repr

/-- Modelled from the spec: the fixed genesis constant (section 3, "for the
first entry, previous root is a fixed genesis constant"). -/
def GENESIS_ROOT : Digest := Digest.genesis

/-- Modelled from the spec: the Commitment Engine, `commit(payload) -> Digest`
(section 4.1).  Pure and deterministic; in the ideal-hash algebra the digest
of a payload is the free term built from it. -/
def commit (payload : List Nat) : Digest := Digest.commitOf payload

/-- Modelled from the spec: `combine(a, b) = digest(concat(a, b))`
(section 4.2), with the frame commitment as the first operand and the
previous root as the second.  In the ideal-hash algebra the digest of the
concatenation of two fixed-size digests is the free combination term. -/
def combine (a b : Digest) : Digest := Digest.combineOf a b

/-- Entry outcome classification, from `crate::corridor::types::EntryType`
(used in the visible source); modelled from the spec: enum
`Standard | Refusal` (section 3). -/
inductive EntryType where
  | Standard : EntryType
  | Refusal : EntryType
deriving DecidableEq, Repr

/-- Modelled from the spec: the sealed, immutable ledger record (section 3).
The spec gives `timestamp` as floating-point seconds; no claim depends on
float arithmetic, so time is carried as an opaque tick count. -/
structure LedgerEntry where
  sequence_id : Nat
  entry_type : EntryType
  timestamp : Nat
  scene_id : String
  frame_commitment : Digest
  merkle_root : Digest
deriving DecidableEq, Repr

instance : Inhabited LedgerEntry :=
  ⟨⟨0, EntryType.Standard, 0, "", GENESIS_ROOT, GENESIS_ROOT⟩⟩

/-- Modelled from the spec: the capture frame handed to the seal orchestrator
(sections 3 and 6): a scene identifier, an opaque payload (canonical bytes),
an entry classification and a timestamp. -/
structure FrameCapture where
  scene_id : String
  payload : List Nat
  entry_type : EntryType
  timestamp : Nat
deriving DecidableEq, Repr

/-- The ledger aggregate, from `crate::corridor::types::WindchillLedger`
(its `entries` field is iterated by the visible `export_to_vault`);
modelled from the spec: an ordered sequence of `LedgerEntry` (section 3). -/
structure WindchillLedger where
  entries : List LedgerEntry
deriving DecidableEq, Repr

/-- The empty ledger (spec section 3: "the ledger is created empty"). -/
def emptyLedger : WindchillLedger := ⟨[]⟩

/-- Merkle root of the last entry of an entry list, or the given digest when
the list is empty. -/
def lastRootFrom (g : Digest) (es : List LedgerEntry) : Digest :=
  match es.getLast? with
  | some e => e.merkle_root
  | none => g

/-- Modelled from the spec: the previous root used by `append`, i.e. the last
entry's `merkle_root` or the genesis constant when the ledger is empty
(section 4.2, `last_root_or_genesis`). -/
def WindchillLedger.lastRoot (l : WindchillLedger) : Digest :=
  lastRootFrom GENESIS_ROOT l.entries

/-- Modelled from the spec: the sequence id assigned by the next `append`,
`last_sequence_id + 1`, or the genesis value 0 when the ledger is empty
(sections 3 and 4.2; the concrete scenario in section 8 seals into an empty
ledger and obtains "entry 0"). -/
def WindchillLedger.nextSequenceId (l : WindchillLedger) : Nat :=
  match l.entries.getLast? with
  | some e => e.sequence_id + 1
  | none => 0

/-- Modelled from the spec: the Ledger Core's only mutation entry point,
`append(frame_commitment, scene_id, entry_type, timestamp) -> LedgerEntry`
(section 4.2): computes `merkle_root = combine(frame_commitment,
last_root_or_genesis)`, assigns the next sequence id, stores the entry and
returns it.  State passing stands in for the `&mut` receiver. -/
def WindchillLedger.append (l : WindchillLedger) (fc : Digest) (sid : String)
    (et : EntryType) (ts : Nat) : WindchillLedger × LedgerEntry :=
  let entry : LedgerEntry :=
    { sequence_id := l.nextSequenceId
      entry_type := et
      timestamp := ts
      scene_id := sid
      frame_commitment := fc
      merkle_root := combine fc l.lastRoot }
  (⟨l.entries ++ [entry]⟩, entry)

/-- Failure taxonomy of the seal orchestrator (spec section 7).  The visible
source enforces the identity precondition with an `assert!` whose message is
"Identity Breach: ..."; that abort is modelled as the `IdentityBreach`
failure result the spec prescribes. -/
inductive SealError where
  | IdentityBreach : SealError
deriving DecidableEq, Repr

/-- The seal orchestrator, from `seal_frame_into_ledger` in
`src/corridor/stage4_merkle.rs`: the scene-identity guard runs first, before
any ledger mutation, and only then is the frame committed and appended
(the delegated `ledger.seal(cap)` body is modelled from spec section 4.3,
steps 2-4).  The Rust `&mut WindchillLedger` becomes state passing: the
returned ledger is the input ledger when the guard rejects the frame. -/
def seal_frame_into_ledger (cap : FrameCapture) (ledger : WindchillLedger) :
    WindchillLedger × Except SealError LedgerEntry :=
  if cap.scene_id.isEmpty then
    (ledger, Except.error SealError.IdentityBreach)
  else
    let fc := commit cap.payload
    let (l2, entry) := ledger.append fc cap.scene_id cap.entry_type cap.timestamp
    (l2, Except.ok entry)

/-- Modelled from the spec: the integrity failure reported by verification,
carrying the offending sequence id together with the expected and actual
roots (section 4.2, "the first mismatch found (index, expected, actual)"). -/
structure IntegrityError where
  sequence_id : Nat
  expected : Digest
  actual : Digest
deriving DecidableEq, Repr

/-- Modelled from the spec: the linear scan of `verify_chain` (section 4.2),
parameterized by the previous root: each entry's expected root is recomputed
from its stored `frame_commitment` and the chain rule and compared with the
stored root; the first mismatch is returned. -/
def verifyChainFrom (prev : Digest) : List LedgerEntry → Except IntegrityError Unit
  | [] => Except.ok ()
  | e :: rest =>
      let expected := combine e.frame_commitment prev
      if expected = e.merkle_root then
        verifyChainFrom e.merkle_root rest
      else
        Except.error ⟨e.sequence_id, expected, e.merkle_root⟩

/-- Modelled from the spec: `verify_chain() -> Result<(), IntegrityError>`
(section 4.2), scanning the whole ledger from the genesis constant. -/
def WindchillLedger.verify_chain (l : WindchillLedger) : Except IntegrityError Unit :=
  verifyChainFrom GENESIS_ROOT l.entries

/-- The hash-chain invariant of an entry list relative to a previous root:
every entry's stored `merkle_root` is `combine` of its stored
`frame_commitment` with its predecessor's root (spec section 3). -/
def chainOkFrom (prev : Digest) : List LedgerEntry → Prop
  | [] => True
  | e :: rest => e.merkle_root = combine e.frame_commitment prev ∧
      chainOkFrom e.merkle_root rest

instance chainOkFromDecidable (prev : Digest) (es : List LedgerEntry) :
    Decidable (chainOkFrom prev es) := by
  induction es generalizing prev with
  | nil => exact isTrue trivial
  | cons e rest ih =>
      haveI := ih e.merkle_root
      exact instDecidableAnd

/-- Ledger states reachable through the core's api: the empty ledger, grown
only by `append` (the Ledger Core's single mutation entry point; `seal`
either rejects the frame, leaving the state unchanged, or delegates to
`append`). -/
inductive Reachable : WindchillLedger → Prop where
  | empty : Reachable emptyLedger
  | append (l : WindchillLedger) (fc : Digest) (sid : String) (et : EntryType)
      (ts : Nat) : Reachable l → Reachable (l.append fc sid et ts).1

/-- A successful seal is an append, so seal preserves reachability. -/
theorem Reachable.seal (cap : FrameCapture) (l : WindchillLedger)
    (h : Reachable l) : Reachable (seal_frame_into_ledger cap l).1 := by
  unfold seal_frame_into_ledger
  by_cases hc : cap.scene_id.isEmpty
  · simp [hc]
    exact h
  · simp [hc]
    exact Reachable.append l (commit cap.payload) cap.scene_id cap.entry_type
      cap.timestamp h

/-- The sequence-id invariant of spec section 3: sequence ids form the
contiguous range 0, 1, ..., length-1 in order. -/
def SeqContiguous (es : List LedgerEntry) : Prop :=
  es.map (fun e => e.sequence_id) = List.range es.length

/-- Peeling the head entry off `lastRootFrom`. -/
theorem lastRootFrom_cons (g : Digest) (a : LedgerEntry) (rest : List LedgerEntry) :
    lastRootFrom g (a :: rest) = lastRootFrom a.merkle_root rest := by
  cases rest with
  | nil => rfl
  | cons b t =>
      unfold lastRootFrom
      rw [List.getLast?_cons_cons]
      cases ht : (b :: t).getLast? with
      | none => exact absurd (List.getLast?_eq_none_iff.mp ht) (by simp)
      | some x => rfl

/-- Appending one entry to a chained list keeps the chain exactly when the new
entry's root combines its commitment with the previous last root. -/
theorem chainOkFrom_snoc (g : Digest) (es : List LedgerEntry) (e : LedgerEntry) :
    chainOkFrom g (es ++ [e]) ↔
      chainOkFrom g es ∧ e.merkle_root = combine e.frame_commitment (lastRootFrom g es) := by
  induction es generalizing g with
  | nil => simp [chainOkFrom, lastRootFrom]
  | cons a rest ih =>
      simp only [List.cons_append, chainOkFrom, lastRootFrom_cons, and_assoc]
      exact and_congr_right fun _ => ih a.merkle_root

/-- A chained list passes the verification scan. -/
theorem verifyChainFrom_ok_of_chainOk (prev : Digest) (es : List LedgerEntry)
    (h : chainOkFrom prev es) : verifyChainFrom prev es = Except.ok () := by
  induction es generalizing prev with
  | nil => rfl
  | cons e rest ih =>
      obtain ⟨h1, h2⟩ := h
      simp [verifyChainFrom, h1.symm, ih e.merkle_root h2]

/-- When the sequence ids are contiguous, the next assigned id is the length. -/
theorem nextSequenceId_eq_length (l : WindchillLedger)
    (h : SeqContiguous l.entries) : l.nextSequenceId = l.entries.length := by
  unfold WindchillLedger.nextSequenceId
  cases he : l.entries.getLast? with
  | none =>
      rw [List.getLast?_eq_none_iff] at he
      simp [he]
  | some e =>
      have hne : l.entries ≠ [] := by
        intro hnil
        rw [hnil] at he
        simp at he
      obtain ⟨n, hn⟩ : ∃ n, l.entries.length = n + 1 := by
        cases hl : l.entries.length with
        | zero => exact absurd (List.length_eq_zero.mp hl) hne
        | succ n => exact ⟨n, rfl⟩
      have hmap : (l.entries.map (fun e => e.sequence_id)).getLast? =
          (List.range l.entries.length).getLast? := by rw [h]
      rw [List.getLast?_map, he, hn, List.range_succ, List.getLast?_concat] at hmap
      simp at hmap
      show e.sequence_id + 1 = l.entries.length
      rw [hmap, hn]

/-- The two structural invariants hold in every reachable ledger state:
the hash chain from genesis is intact and sequence ids are contiguous
from 0. -/
theorem reachable_invariant (l : WindchillLedger) (h : Reachable l) :
    chainOkFrom GENESIS_ROOT l.entries ∧ SeqContiguous l.entries := by
  induction h with
  | empty => exact ⟨trivial, rfl⟩
  | append l fc sid et ts _ ih =>
      obtain ⟨hchain, hseq⟩ := ih
      constructor
      · rw [show (l.append fc sid et ts).1.entries = l.entries ++
          [(l.append fc sid et ts).2] from rfl, chainOkFrom_snoc]
        exact ⟨hchain, rfl⟩
      · unfold SeqContiguous
        rw [show (l.append fc sid et ts).1.entries = l.entries ++
          [(l.append fc sid et ts).2] from rfl]
        rw [List.map_append, List.length_append]
        unfold SeqContiguous at hseq
        simp only [List.map_cons, List.map_nil, List.length_cons, List.length_nil]
        rw [hseq]
        have hseqid : (l.append fc sid et ts).2.sequence_id = l.entries.length :=
          nextSequenceId_eq_length l hseq
        rw [hseqid, List.range_succ]

/-- The largest sequence id stored in the ledger (0 on an empty ledger). -/
def maxSequenceId (l : WindchillLedger) : Nat :=
  (l.entries.map (fun e => e.sequence_id)).foldr max 0

/-- Folding `max` over `List.range n` yields `max acc (n - 1)`. -/
theorem foldr_max_range (n : Nat) (acc : Nat) :
    (List.range n).foldr max acc = max acc (n - 1) := by
  induction n generalizing acc with
  | zero => simp
  | succ m ih =>
      rw [List.range_succ, List.foldr_append]
      simp only [List.foldr_cons, List.foldr_nil]
      rw [ih]
      omega

/-- In a contiguous ledger the stored maximum sequence id is `length - 1`. -/
theorem maxSequenceId_of_contiguous (l : WindchillLedger)
    (h : SeqContiguous l.entries) : maxSequenceId l = l.entries.length - 1 := by
  unfold maxSequenceId
  rw [h, foldr_max_range]
  omega

/-- An entry list indexed positionally, with a default entry out of range. -/
def entryAt (es : List LedgerEntry) (i : Nat) : LedgerEntry := es.getD i default

/-- Pointwise form of the chain invariant: in a chained list, every entry's
root combines its commitment with its predecessor's root (the previous root
parameter at index 0). -/
theorem chainOkFrom_index (es : List LedgerEntry) (prev : Digest)
    (h : chainOkFrom prev es) (i : Nat) (hi : i < es.length) :
    (entryAt es i).merkle_root =
      combine (entryAt es i).frame_commitment
        (if i = 0 then prev else (entryAt es (i - 1)).merkle_root) := by
  induction es generalizing prev i with
  | nil => simp at hi
  | cons e rest ih =>
      obtain ⟨h1, h2⟩ := h
      cases i with
      | zero => simpa [entryAt] using h1
      | succ j =>
          have hj : j < rest.length := by simpa using hi
          have hrec := ih e.merkle_root h2 j hj
          cases j with
          | zero => simpa [entryAt] using hrec
          | succ k => simpa [entryAt] using hrec

/-- Unfolding of a seal whose scene identity is non-empty: the guard passes
and the call delegates to `append`. -/
theorem seal_nonempty_eq (cap : FrameCapture) (l : WindchillLedger)
    (hne : cap.scene_id.isEmpty = false) :
    seal_frame_into_ledger cap l =
      ((l.append (commit cap.payload) cap.scene_id cap.entry_type cap.timestamp).1,
        Except.ok
          (l.append (commit cap.payload) cap.scene_id cap.entry_type cap.timestamp).2) := by
  simp [seal_frame_into_ledger, hne]

/-- C1: sealing a frame whose `scene_id` is the empty string fails with
`IdentityBreach` and leaves the ledger completely untouched: the returned
ledger is the input ledger, so its length, its next sequence id and its last
chain root are all unchanged — the identity guard runs strictly before any
ledger mutation. -/
theorem seal_empty_scene_rejected (cap : FrameCapture) (l : WindchillLedger)
    (h : cap.scene_id = "") :
    seal_frame_into_ledger cap l = (l, Except.error SealError.IdentityBreach) ∧
    (seal_frame_into_ledger cap l).1.entries.length = l.entries.length ∧
    (seal_frame_into_ledger cap l).1.nextSequenceId = l.nextSequenceId ∧
    (seal_frame_into_ledger cap l).1.lastRoot = l.lastRoot := by
  have hb : cap.scene_id.isEmpty = true := by rw [h]; rfl
  refine ⟨?_, ?_, ?_, ?_⟩ <;> simp [seal_frame_into_ledger, hb]

/-- Witness for C1: a concrete frame with empty scene id is rejected over a
concrete one-entry ledger and the ledger comes back unchanged. -/
theorem seal_empty_scene_rejected_witness :
    seal_frame_into_ledger ⟨"", [2], EntryType.Refusal, 5⟩
        (emptyLedger.append (commit [1]) "s1" EntryType.Standard 0).1 =
      ((emptyLedger.append (commit [1]) "s1" EntryType.Standard 0).1,
        Except.error SealError.IdentityBreach) ∧
    (seal_frame_into_ledger ⟨"", [2], EntryType.Refusal, 5⟩
        (emptyLedger.append (commit [1]) "s1" EntryType.Standard 0).1).1.entries.length =
      (emptyLedger.append (commit [1]) "s1" EntryType.Standard 0).1.entries.length ∧
    (seal_frame_into_ledger ⟨"", [2], EntryType.Refusal, 5⟩
        (emptyLedger.append (commit [1]) "s1" EntryType.Standard 0).1).1.nextSequenceId =
      (emptyLedger.append (commit [1]) "s1" EntryType.Standard 0).1.nextSequenceId ∧
    (seal_frame_into_ledger ⟨"", [2], EntryType.Refusal, 5⟩
        (emptyLedger.append (commit [1]) "s1" EntryType.Standard 0).1).1.lastRoot =
      (emptyLedger.append (commit [1]) "s1" EntryType.Standard 0).1.lastRoot :=
  seal_empty_scene_rejected _ _ rfl

/-- C2: sealing a frame with non-empty scene id into any reachable ledger
state succeeds: the result is `Except.ok` of the finalized entry, the entry
is appended so the length grows by exactly one, and the new entry's sequence
id is the previous maximum sequence id plus one (the genesis value 0 on an
empty ledger). -/
theorem seal_nonempty_succeeds (cap : FrameCapture) (l : WindchillLedger)
    (hscene : cap.scene_id ≠ "") (hl : Reachable l) :
    ∃ e : LedgerEntry,
      seal_frame_into_ledger cap l = (⟨l.entries ++ [e]⟩, Except.ok e) ∧
      (seal_frame_into_ledger cap l).1.entries.length = l.entries.length + 1 ∧
      e.sequence_id = (if l.entries.isEmpty then 0 else maxSequenceId l + 1) := by
  have hseq := (reachable_invariant l hl).2
  have hne : cap.scene_id.isEmpty = false := by
    cases hb : cap.scene_id.isEmpty
    · rfl
    · exact absurd ((String.isEmpty_iff cap.scene_id).mp hb) hscene
  refine ⟨(l.append (commit cap.payload) cap.scene_id cap.entry_type cap.timestamp).2,
    ?_, ?_, ?_⟩
  · rw [seal_nonempty_eq cap l hne]
    rfl
  · rw [seal_nonempty_eq cap l hne]
    simp [WindchillLedger.append]
  · show l.nextSequenceId = _
    rw [nextSequenceId_eq_length l hseq]
    by_cases hE : l.entries.isEmpty
    · rw [if_pos hE]
      rw [List.isEmpty_iff] at hE
      simp [hE]
    · rw [if_neg hE, maxSequenceId_of_contiguous l hseq]
      rw [List.isEmpty_iff] at hE
      have : 0 < l.entries.length := List.length_pos.mpr hE
      omega

/-- Witness for C2: a concrete non-empty-scene frame sealed into a concrete
one-entry reachable ledger. -/
theorem seal_nonempty_succeeds_witness :
    (⟨"s2", [2], EntryType.Refusal, 1⟩ : FrameCapture).scene_id ≠ "" ∧
    ∃ e : LedgerEntry,
      seal_frame_into_ledger ⟨"s2", [2], EntryType.Refusal, 1⟩
          (emptyLedger.append (commit [1]) "s1" EntryType.Standard 0).1 =
        (⟨(emptyLedger.append (commit [1]) "s1" EntryType.Standard 0).1.entries ++ [e]⟩,
          Except.ok e) ∧
      (seal_frame_into_ledger ⟨"s2", [2], EntryType.Refusal, 1⟩
          (emptyLedger.append (commit [1]) "s1" EntryType.Standard 0).1).1.entries.length =
        (emptyLedger.append (commit [1]) "s1" EntryType.Standard 0).1.entries.length + 1 ∧
      e.sequence_id =
        (if (emptyLedger.append (commit [1]) "s1" EntryType.Standard 0).1.entries.isEmpty
          then 0
          else maxSequenceId (emptyLedger.append (commit [1]) "s1" EntryType.Standard 0).1 + 1) :=
  ⟨by decide,
    seal_nonempty_succeeds ⟨"s2", [2], EntryType.Refusal, 1⟩
      (emptyLedger.append (commit [1]) "s1" EntryType.Standard 0).1 (by decide)
      (Reachable.append _ _ _ _ _ Reachable.empty)⟩

/-- C3: in every reachable ledger state, every entry at index `i > 0`
satisfies `merkle_root[i] = combine(frame_commitment[i], merkle_root[i-1])`
and the entry at index 0 satisfies
`merkle_root[0] = combine(frame_commitment[0], GENESIS_ROOT)`, with the
frame commitment as the first operand of `combine` and the previous root as
the second. -/
theorem merkle_chain_rule (l : WindchillLedger) (h : Reachable l) (i : Nat)
    (hi : i < l.entries.length) :
    (entryAt l.entries i).merkle_root =
      combine (entryAt l.entries i).frame_commitment
        (if i = 0 then GENESIS_ROOT else (entryAt l.entries (i - 1)).merkle_root) :=
  chainOkFrom_index l.entries GENESIS_ROOT (reachable_invariant l h).1 i hi

/-- Witness for C3: the chain rule evaluated at index 1 of a concrete
two-entry ledger. -/
theorem merkle_chain_rule_witness :
    1 < ((emptyLedger.append (commit [1]) "s1" EntryType.Standard 0).1.append
          (commit [2]) "s2" EntryType.Refusal 1).1.entries.length ∧
    (entryAt ((emptyLedger.append (commit [1]) "s1" EntryType.Standard 0).1.append
          (commit [2]) "s2" EntryType.Refusal 1).1.entries 1).merkle_root =
      combine
        (entryAt ((emptyLedger.append (commit [1]) "s1" EntryType.Standard 0).1.append
          (commit [2]) "s2" EntryType.Refusal 1).1.entries 1).frame_commitment
        (if (1 : Nat) = 0 then GENESIS_ROOT
          else (entryAt ((emptyLedger.append (commit [1]) "s1" EntryType.Standard 0).1.append
            (commit [2]) "s2" EntryType.Refusal 1).1.entries (1 - 1)).merkle_root) :=
  ⟨by decide,
    merkle_chain_rule _
      (Reachable.append _ _ _ _ _ (Reachable.append _ _ _ _ _ Reachable.empty))
      1 (by decide)⟩

/-- C4: `verify_chain` succeeds on every ledger built through the core's
sealing/append api from the empty ledger. -/
theorem verify_chain_reachable (l : WindchillLedger) (h : Reachable l) :
    l.verify_chain = Except.ok () :=
  verifyChainFrom_ok_of_chainOk GENESIS_ROOT l.entries (reachable_invariant l h).1

/-- Witness for C4: verification succeeds on a concrete two-entry ledger
built by two appends. -/
theorem verify_chain_reachable_witness :
    ((emptyLedger.append (commit [1]) "s1" EntryType.Standard 0).1.append
        (commit [2]) "s2" EntryType.Refusal 1).1.verify_chain = Except.ok () :=
  verify_chain_reachable _
    (Reachable.append _ _ _ _ _ (Reachable.append _ _ _ _ _ Reachable.empty))

/-- An out-of-band mutation of one stored field of one entry: either the
stored `frame_commitment` or the stored `merkle_root` is replaced.  Digests
are fixed-size byte strings, so mutating any single byte of a stored digest
yields a different digest value; the mutation is therefore modelled as
replacing the field by a digest different from the stored one. -/
inductive Tamper where
  | fc (d : Digest) : Tamper
  | root (d : Digest) : Tamper

/-- Applying a tamper to a single entry. -/
def tamperEntry (e : LedgerEntry) : Tamper → LedgerEntry
  | Tamper.fc d => { e with frame_commitment := d }
  | Tamper.root d => { e with merkle_root := d }

/-- The tamper actually changes the stored field (a mutated byte changes the
digest value). -/
def tamperChanges (e : LedgerEntry) : Tamper → Prop
  | Tamper.fc d => d ≠ e.frame_commitment
  | Tamper.root d => d ≠ e.merkle_root

instance tamperChangesDecidable (e : LedgerEntry) (t : Tamper) :
    Decidable (tamperChanges e t) := by
  cases t with
  | fc d => exact inferInstanceAs (Decidable (d ≠ e.frame_commitment))
  | root d => exact inferInstanceAs (Decidable (d ≠ e.merkle_root))

/-- The ledger with entry `i` tampered out-of-band (no api call involved). -/
def applyTamper (l : WindchillLedger) (i : Nat) (t : Tamper) : WindchillLedger :=
  ⟨l.entries.set i (tamperEntry (entryAt l.entries i) t)⟩

/-- The root that the chain rule recomputes for index `i` from the stored
fields (spec section 4.2). -/
def expectedRootAt (es : List LedgerEntry) (i : Nat) : Digest :=
  combine (entryAt es i).frame_commitment
    (if i = 0 then GENESIS_ROOT else (entryAt es (i - 1)).merkle_root)

/-- Index `i` diverges when the recomputed root differs from the stored one. -/
def divergesAt (es : List LedgerEntry) (i : Nat) : Prop :=
  expectedRootAt es i ≠ (entryAt es i).merkle_root

/-- Tampering never changes an entry's sequence id. -/
theorem tamperEntry_sequence_id (e : LedgerEntry) (t : Tamper) :
    (tamperEntry e t).sequence_id = e.sequence_id := by
  cases t <;> rfl

/-- Positional read of a list after `set` at the same position. -/
theorem entryAt_set_eq (es : List LedgerEntry) (i : Nat) (e' : LedgerEntry)
    (hi : i < es.length) : entryAt (es.set i e') i = e' := by
  induction es generalizing i with
  | nil => simp at hi
  | cons a t ih =>
      cases i with
      | zero => rfl
      | succ j => exact ih j (by simpa using hi)

/-- Positional read of a list after `set` at a different position. -/
theorem entryAt_set_ne (es : List LedgerEntry) (i j : Nat) (e' : LedgerEntry)
    (h : j ≠ i) : entryAt (es.set i e') j = entryAt es j := by
  induction es generalizing i j with
  | nil => rfl
  | cons a t ih =>
      cases i with
      | zero =>
          cases j with
          | zero => exact absurd rfl h
          | succ k => rfl
      | succ m =>
          cases j with
          | zero => rfl
          | succ k => exact ih m k (fun hk => h (by rw [hk]))

/-- Scanning a chained list in which position `i` was overwritten with an
entry whose stored root no longer matches the recomputed one stops exactly
at position `i` and reports that entry's data. -/
theorem verifyChainFrom_set (es : List LedgerEntry) (prev : Digest)
    (h : chainOkFrom prev es) (i : Nat) (hi : i < es.length) (e' : LedgerEntry)
    (hmm : e'.merkle_root ≠ combine e'.frame_commitment
      (if i = 0 then prev else (entryAt es (i - 1)).merkle_root)) :
    verifyChainFrom prev (es.set i e') =
      Except.error ⟨e'.sequence_id,
        combine e'.frame_commitment
          (if i = 0 then prev else (entryAt es (i - 1)).merkle_root),
        e'.merkle_root⟩ := by
  induction es generalizing prev i with
  | nil => simp at hi
  | cons e rest ih =>
      obtain ⟨h1, h2⟩ := h
      cases i with
      | zero =>
          have hmm0 : e'.merkle_root ≠ combine e'.frame_commitment prev := by
            intro hx
            apply hmm
            rw [hx]
            simp
          rw [List.set_cons_zero]
          show (if combine e'.frame_commitment prev = e'.merkle_root then
              verifyChainFrom e'.merkle_root rest
            else Except.error ⟨e'.sequence_id, combine e'.frame_commitment prev,
              e'.merkle_root⟩) = _
          rw [if_neg (fun hx => hmm0 hx.symm)]
          simp
      | succ j =>
          have hj : j < rest.length := by simpa using hi
          have hmm2 : e'.merkle_root ≠ combine e'.frame_commitment
              (if j = 0 then e.merkle_root else (entryAt rest (j - 1)).merkle_root) := by
            intro hx
            apply hmm
            rw [hx]
            cases j with
            | zero => rfl
            | succ k => rfl
          have := ih e.merkle_root h2 j hj hmm2
          rw [List.set_cons_succ]
          show verifyChainFrom prev (e :: rest.set j e') = _
          rw [show verifyChainFrom prev (e :: rest.set j e') =
            (if combine e.frame_commitment prev = e.merkle_root then
              verifyChainFrom e.merkle_root (rest.set j e')
            else Except.error ⟨e.sequence_id, combine e.frame_commitment prev,
              e.merkle_root⟩) from rfl]
          rw [if_pos h1.symm, this]
          cases j with
          | zero => rfl
          | succ k => rfl

/-- C5: in any reachable (seal-built) ledger, tampering a single stored
`frame_commitment` or `merkle_root` of any entry out of band makes
`verify_chain` fail, the reported `IntegrityError` carries the sequence id
of the tampered entry, and that index is the earliest divergence: the
tampered index diverges while every earlier index still recomputes
correctly. -/
theorem tamper_detected (l : WindchillLedger) (hl : Reachable l) (i : Nat)
    (hi : i < l.entries.length) (t : Tamper)
    (hch : tamperChanges (entryAt l.entries i) t) :
    (∃ exp act, (applyTamper l i t).verify_chain =
        Except.error ⟨(entryAt l.entries i).sequence_id, exp, act⟩) ∧
    divergesAt (applyTamper l i t).entries i ∧
    (∀ j, j < i → ¬ divergesAt (applyTamper l i t).entries j) := by
  have hchain := (reachable_invariant l hl).1
  have horig : (entryAt l.entries i).merkle_root =
      combine (entryAt l.entries i).frame_commitment
        (if i = 0 then GENESIS_ROOT else (entryAt l.entries (i - 1)).merkle_root) :=
    chainOkFrom_index l.entries GENESIS_ROOT hchain i hi
  set o := entryAt l.entries i with ho
  set R := (if i = 0 then GENESIS_ROOT else (entryAt l.entries (i - 1)).merkle_root)
    with hR
  have hmm : (tamperEntry o t).merkle_root ≠
      combine (tamperEntry o t).frame_commitment R := by
    cases t with
    | fc d =>
        intro hx
        simp only [tamperEntry] at hx
        have h3 : combine o.frame_commitment R = combine d R := horig.symm.trans hx
        simp only [combine, Digest.combineOf.injEq] at h3
        exact hch h3.1.symm
    | root d =>
        intro hx
        simp only [tamperEntry] at hx
        exact hch (hx.trans horig.symm)
  refine ⟨⟨combine (tamperEntry o t).frame_commitment R, (tamperEntry o t).merkle_root, ?_⟩,
    ?_, ?_⟩
  · show verifyChainFrom GENESIS_ROOT (l.entries.set i (tamperEntry o t)) = _
    rw [verifyChainFrom_set l.entries GENESIS_ROOT hchain i hi (tamperEntry o t) hmm,
      tamperEntry_sequence_id]
  · show expectedRootAt (l.entries.set i (tamperEntry o t)) i ≠
      (entryAt (l.entries.set i (tamperEntry o t)) i).merkle_root
    rw [entryAt_set_eq l.entries i (tamperEntry o t) hi]
    unfold expectedRootAt
    rw [entryAt_set_eq l.entries i (tamperEntry o t) hi]
    intro hx
    apply hmm
    rw [hx.symm]
    by_cases h0 : i = 0
    · simp only [if_pos h0, hR, if_pos h0]
    · rw [if_neg h0, entryAt_set_ne l.entries i (i - 1) (tamperEntry o t) (by omega),
        hR, if_neg h0]
  · intro j hj hdiv
    apply hdiv
    show expectedRootAt (l.entries.set i (tamperEntry o t)) j =
      (entryAt (l.entries.set i (tamperEntry o t)) j).merkle_root
    unfold expectedRootAt
    rw [entryAt_set_ne l.entries i j (tamperEntry o t) (by omega)]
    have hji : j < l.entries.length := by omega
    have := (chainOkFrom_index l.entries GENESIS_ROOT hchain j hji).symm
    by_cases h0 : j = 0
    · rw [if_pos h0]
      rw [if_pos h0] at this
      exact this
    · rw [if_neg h0, entryAt_set_ne l.entries i (j - 1) (tamperEntry o t) (by omega)]
      rw [if_neg h0] at this
      exact this

/-- Witness for C5: tampering the stored commitment of entry 0 of a concrete
two-entry ledger is detected at sequence id 0. -/
theorem tamper_detected_witness :
    (∃ exp act,
      (applyTamper ((emptyLedger.append (commit [1]) "s1" EntryType.Standard 0).1.append
          (commit [2]) "s2" EntryType.Refusal 1).1 0 (Tamper.fc (commit [9]))).verify_chain =
        Except.error ⟨(entryAt ((emptyLedger.append (commit [1]) "s1"
            EntryType.Standard 0).1.append
          (commit [2]) "s2" EntryType.Refusal 1).1.entries 0).sequence_id, exp, act⟩) ∧
    divergesAt (applyTamper ((emptyLedger.append (commit [1]) "s1"
          EntryType.Standard 0).1.append
        (commit [2]) "s2" EntryType.Refusal 1).1 0 (Tamper.fc (commit [9]))).entries 0 ∧
    (∀ j, j < 0 → ¬ divergesAt (applyTamper ((emptyLedger.append (commit [1]) "s1"
          EntryType.Standard 0).1.append
        (commit [2]) "s2" EntryType.Refusal 1).1 0 (Tamper.fc (commit [9]))).entries j) :=
  tamper_detected _
    (Reachable.append _ _ _ _ _ (Reachable.append _ _ _ _ _ Reachable.empty))
    0 (by decide) (Tamper.fc (commit [9])) (by decide)

/-- Sealing a whole sequence of frames in order, threading the ledger state;
a rejected frame leaves the state unchanged and the run continues with the
next frame. -/
def sealFrames (caps : List FrameCapture) (l : WindchillLedger) : WindchillLedger :=
  caps.foldl (fun acc cap => (seal_frame_into_ledger cap acc).1) l

/-- The sequence of stored merkle roots, in ledger order. -/
def rootSequence (l : WindchillLedger) : List Digest :=
  l.entries.map (fun e => e.merkle_root)

/-- C6: chain determinism as a two-run property — sealing the identical
sequence of frames into two fresh (empty) ledgers yields identical
`merkle_root` sequences; nothing outside the frames (no randomness, no
ambient clock) enters the commitments or the chain. -/
theorem chain_deterministic (caps : List FrameCapture) (l1 l2 : WindchillLedger)
    (h1 : sealFrames caps emptyLedger = l1) (h2 : sealFrames caps emptyLedger = l2) :
    rootSequence l1 = rootSequence l2 := by
  subst h1
  subst h2
  rfl

/-- Witness for C6: two runs over a concrete frame sequence (one frame of
which is rejected) produce the same root sequence. -/
theorem chain_deterministic_witness :
    rootSequence (sealFrames [⟨"s1", [1], EntryType.Standard, 0⟩,
        ⟨"", [2], EntryType.Refusal, 1⟩, ⟨"s3", [3], EntryType.Standard, 2⟩]
      emptyLedger) =
    rootSequence (sealFrames [⟨"s1", [1], EntryType.Standard, 0⟩,
        ⟨"", [2], EntryType.Refusal, 1⟩, ⟨"s3", [3], EntryType.Standard, 2⟩]
      emptyLedger) :=
  chain_deterministic _ _ _ rfl rfl

/-- Little-endian base-10 digit extraction with explicit fuel (the fuel is
always at least the digit count, see `natDigitsAux_val`). -/
def natDigitsAux : Nat → Nat → List Nat
  | 0, _ => []
  | _ + 1, 0 => []
  | fuel + 1, n + 1 => ((n + 1) % 10) :: natDigitsAux fuel ((n + 1) / 10)

/-- Big-endian decimal digits of a natural number, as rendered by the Rust
`Display` implementation for unsigned integers: no leading zeros, and the
single digit 0 for zero. -/
def natDigits (n : Nat) : List Nat :=
  if n = 0 then [0] else (natDigitsAux n n).reverse

/-- Value of a little-endian digit list. -/
def ofDigitsLE : List Nat → Nat
  | [] => 0
  | d :: rest => d + 10 * ofDigitsLE rest

/-- Value of a big-endian digit list, folding from the most significant
digit. -/
def decimalValue (ds : List Nat) : Nat := ds.foldl (fun a d => a * 10 + d) 0

theorem natDigitsAux_val (fuel n : Nat) (h : n ≤ fuel) :
    ofDigitsLE (natDigitsAux fuel n) = n := by
  induction fuel generalizing n with
  | zero =>
      have : n = 0 := Nat.le_zero.mp h
      subst this
      rfl
  | succ f ih =>
      cases n with
      | zero => rfl
      | succ m =>
          have hdiv : (m + 1) / 10 ≤ f := by
            have := Nat.div_lt_self (Nat.succ_pos m) (by norm_num : 1 < 10)
            omega
          show ((m + 1) % 10) + 10 * ofDigitsLE (natDigitsAux f ((m + 1) / 10)) = m + 1
          rw [ih ((m + 1) / 10) hdiv]
          exact Nat.mod_add_div (m + 1) 10

theorem natDigitsAux_lt (fuel n : Nat) : ∀ d ∈ natDigitsAux fuel n, d < 10 := by
  induction fuel generalizing n with
  | zero => simp [natDigitsAux]
  | succ f ih =>
      cases n with
      | zero => simp [natDigitsAux]
      | succ m =>
          intro d hd
          rw [show natDigitsAux (f + 1) (m + 1) =
            ((m + 1) % 10) :: natDigitsAux f ((m + 1) / 10) from rfl] at hd
          rcases List.mem_cons.mp hd with h | h
          · rw [h]
            exact Nat.mod_lt _ (by norm_num)
          · exact ih ((m + 1) / 10) d h

theorem natDigits_lt (n : Nat) : ∀ d ∈ natDigits n, d < 10 := by
  unfold natDigits
  by_cases h : n = 0
  · rw [if_pos h]
    intro d hd
    simp at hd
    omega
  · rw [if_neg h]
    intro d hd
    exact natDigitsAux_lt n n d (List.mem_reverse.mp hd)

theorem foldl_reverse_ofDigitsLE (le : List Nat) (a : Nat) :
    le.reverse.foldl (fun x d => x * 10 + d) a = a * 10 ^ le.length + ofDigitsLE le := by
  induction le generalizing a with
  | nil => simp [ofDigitsLE]
  | cons d rest ih =>
      rw [List.reverse_cons, List.foldl_append, ih]
      show (a * 10 ^ rest.length + ofDigitsLE rest) * 10 + d =
        a * 10 ^ (rest.length + 1) + (d + 10 * ofDigitsLE rest)
      ring

theorem decimalValue_natDigits (n : Nat) : decimalValue (natDigits n) = n := by
  unfold natDigits decimalValue
  by_cases h : n = 0
  · rw [if_pos h, h]
    rfl
  · rw [if_neg h, foldl_reverse_ofDigitsLE, natDigitsAux_val n n (le_refl n)]
    simp

/-- Zero padding on the left up to width 6, as Rust `format` with the `06`
width specifier does for the file name. -/
def padTo6 (ds : List Nat) : List Nat := List.replicate (6 - ds.length) 0 ++ ds

theorem foldl_replicate_zero (k : Nat) :
    (List.replicate k 0).foldl (fun a d => a * 10 + d) 0 = 0 := by
  induction k with
  | zero => rfl
  | succ m ih => simpa [List.replicate_succ] using ih

theorem decimalValue_padTo6 (ds : List Nat) :
    decimalValue (padTo6 ds) = decimalValue ds := by
  unfold padTo6 decimalValue
  rw [List.foldl_append, foldl_replicate_zero]

theorem padTo6_lt (ds : List Nat) (h : ∀ d ∈ ds, d < 10) :
    ∀ d ∈ padTo6 ds, d < 10 := by
  intro d hd
  rcases List.mem_append.mp hd with hz | hm
  · rw [(List.eq_of_mem_replicate hz : d = 0)]
    omega
  · exact h d hm

/-- Left-zero-padded decimal digit lists determine the number: padding does
not change the folded value. -/
theorem padded_digits_injective (m n : Nat)
    (h : padTo6 (natDigits m) = padTo6 (natDigits n)) : m = n := by
  have hv := congrArg decimalValue h
  rwa [decimalValue_padTo6, decimalValue_padTo6, decimalValue_natDigits,
    decimalValue_natDigits] at hv

/-- Decimal digit characters, as produced by the Rust integer formatter:
code point 48 plus the digit value. -/
def digitChar (d : Nat) : Char :=
  if d < 10 then Char.ofNat (48 + d) else '?'

/-- Left inverse of `digitChar` on decimal digits. -/
def charDigit (c : Char) : Nat := c.toNat - 48

theorem charDigit_digitChar : ∀ d, d < 10 → charDigit (digitChar d) = d := by
  decide

theorem map_digitChar_injective (as bs : List Nat) (ha : ∀ d ∈ as, d < 10)
    (hb : ∀ d ∈ bs, d < 10) (h : as.map digitChar = bs.map digitChar) :
    as = bs := by
  have h2 := congrArg (List.map charDigit) h
  rw [List.map_map, List.map_map] at h2
  simp only [Function.comp_def] at h2
  have ha2 : as.map (fun d => charDigit (digitChar d)) = as.map id :=
    List.map_congr_left fun d hd => charDigit_digitChar d (ha d hd)
  have hb2 : bs.map (fun d => charDigit (digitChar d)) = bs.map id :=
    List.map_congr_left fun d hd => charDigit_digitChar d (hb d hd)
  rw [List.map_id] at ha2 hb2
  exact ha2.symm.trans (h2.trans hb2)

/-- Decimal rendering of a natural number (the Rust `Display` output). -/
def natString (n : Nat) : String := String.mk ((natDigits n).map digitChar)

/-- The audit file name produced for a given sequence id by `export_to_vault`
in `src/corridor/stage4_merkle.rs`: the vault path, the zero-padded
width-6 decimal sequence id, and the markdown extension. -/
def seqFileName (n : Nat) : String :=
  "vault/audits/burn_in_2026/seq_" ++
    String.mk ((padTo6 (natDigits n)).map digitChar) ++ ".md"

theorem seqFileName_injective (m n : Nat) (h : seqFileName m = seqFileName n) :
    m = n := by
  have hd := congrArg String.data h
  simp only [seqFileName, String.data_append] at hd
  have hmid := List.append_cancel_right hd
  have hmid2 := List.append_cancel_left hmid
  exact padded_digits_injective m n
    (map_digitChar_injective _ _ (padTo6_lt _ (natDigits_lt m))
      (padTo6_lt _ (natDigits_lt n)) hmid2)

/-- Lowercase hexadecimal digit characters, as produced by `hex::encode`:
decimal digits for nibbles below ten, then code point 97 (lowercase a)
onward for the rest. -/
def hexDigitChar (d : Nat) : Char :=
  if d < 10 then Char.ofNat (48 + d)
  else if d < 16 then Char.ofNat (87 + d)
  else '?'

/-- Model of `hex::encode`: two lowercase hex digits per byte, high nibble
first. -/
def hexEncode (bs : List Nat) : String :=
  String.mk ((bs.map (fun b => [hexDigitChar (b / 16), hexDigitChar (b % 16)])).flatten)

/-- Recognizer for lowercase hexadecimal digit characters: a decimal digit
or a letter between lowercase a and lowercase f. -/
def isLowerHexDigit (c : Char) : Bool :=
  (decide ('0' ≤ c) && decide (c ≤ '9')) || (decide ('a' ≤ c) && decide (c ≤ 'f'))

theorem hexDigitChar_lower : ∀ d, d < 16 → isLowerHexDigit (hexDigitChar d) = true := by
  decide

theorem hexEncode_lower (bs : List Nat) (h : ∀ b ∈ bs, b < 256) :
    ∀ c ∈ (hexEncode bs).data, isLowerHexDigit c = true := by
  intro c hc
  have hc2 : c ∈ (bs.map (fun b => [hexDigitChar (b / 16), hexDigitChar (b % 16)])).flatten := hc
  rw [List.mem_flatten] at hc2
  obtain ⟨l, hl, hcl⟩ := hc2
  rw [List.mem_map] at hl
  obtain ⟨b, hb, hbl⟩ := hl
  have hb256 : b < 256 := h b hb
  have hhi : b / 16 < 16 := by omega
  have hlo : b % 16 < 16 := Nat.mod_lt _ (by norm_num)
  rw [← hbl] at hcl
  rcases List.mem_cons.mp hcl with h1 | h1
  · rw [h1]
    exact hexDigitChar_lower _ hhi
  · rcases List.mem_cons.mp h1 with h2 | h2
    · rw [h2]
      exact hexDigitChar_lower _ hlo
    · simp at h2

/-- Modelled from the spec: the byte serialization of a fixed-size digest
(the Rust ledger stores digests as fixed byte arrays; `hex::encode` and the
YAML serializer read those bytes).  Any concrete injective-free rendering of
the ideal-hash terms into bytes serves; every byte is below 256. -/
def Digest.bytes : Digest → List Nat
  | Digest.genesis => [0]
  | Digest.commitOf p => 1 :: p.map (fun x => x % 256)
  | Digest.combineOf a b => 2 :: (Digest.bytes a ++ Digest.bytes b)

theorem Digest.bytes_lt (d : Digest) : ∀ b ∈ d.bytes, b < 256 := by
  induction d with
  | genesis =>
      intro b hb
      simp [Digest.bytes] at hb
      omega
  | commitOf p =>
      intro b hb
      rcases List.mem_cons.mp hb with h | h
      · omega
      · rw [List.mem_map] at h
        obtain ⟨x, _, hx⟩ := h
        rw [← hx]
        exact Nat.mod_lt _ (by norm_num)
  | combineOf a b iha ihb =>
      intro x hx
      rcases List.mem_cons.mp hx with h | h
      · omega
      · rcases List.mem_append.mp h with h2 | h2
        · exact iha x h2
        · exact ihb x h2

/-- Model of the `serde_yaml` value tree: scalars, sequences and mappings
(mapping keys are themselves values, which is what makes serialization
fallible). -/
inductive YamlValue where
  | scalar (s : String) : YamlValue
  | seq (items : List YamlValue) : YamlValue
  | map (pairs : List (YamlValue × YamlValue)) : YamlValue

mutual

/-- Model of the condition under which `serde_yaml::to_string` succeeds:
every mapping key must be a scalar (serializing a map with a non-scalar key
is the error case of the YAML emitter). -/
def yamlOk : YamlValue → Bool
  | YamlValue.scalar _ => true
  | YamlValue.seq items => yamlOkSeq items
  | YamlValue.map pairs => yamlOkMap pairs

/-- All elements of a sequence are serializable. -/
def yamlOkSeq : List YamlValue → Bool
  | [] => true
  | v :: rest => yamlOk v && yamlOkSeq rest

/-- All pairs of a mapping have a scalar key and a serializable value. -/
def yamlOkMap : List (YamlValue × YamlValue) → Bool
  | [] => true
  | (k, v) :: rest =>
      (match k with
        | YamlValue.scalar _ => true
        | _ => false) && yamlOk v && yamlOkMap rest

end

mutual

/-- Plain YAML rendering of a value (block style for mappings, flow style
for sequences); only its totality matters for the claims. -/
def yamlEmit : YamlValue → String
  | YamlValue.scalar s => s
  | YamlValue.seq items => "[" ++ yamlEmitSeq items ++ "]"
  | YamlValue.map pairs => yamlEmitMap pairs

/-- Rendering of the elements of a sequence. -/
def yamlEmitSeq : List YamlValue → String
  | [] => ""
  | v :: rest => yamlEmit v ++ "," ++ yamlEmitSeq rest

/-- Rendering of the pairs of a mapping. -/
def yamlEmitMap : List (YamlValue × YamlValue) → String
  | [] => ""
  | (k, v) :: rest => yamlEmit k ++ ": " ++ yamlEmit v ++ "\n" ++ yamlEmitMap rest

end

/-- Model of `serde_yaml::to_string`: fails exactly when the value contains a
mapping with a non-scalar key, otherwise renders the value. -/
def serdeYamlToString (v : YamlValue) : Option String :=
  if yamlOk v then some (yamlEmit v) else none

/-- The Rust enum variant names emitted by the derived serializer. -/
def entryTypeName : EntryType → String
  | EntryType.Standard => "Standard"
  | EntryType.Refusal => "Refusal"

/-- The `serde` value tree of a `LedgerEntry`: a mapping from field-name
scalars to scalar or byte-sequence values, exactly the shape the derived
`Serialize` implementation hands to `serde_yaml`. -/
def LedgerEntry.toYamlValue (e : LedgerEntry) : YamlValue :=
  YamlValue.map
    [(YamlValue.scalar "sequence_id", YamlValue.scalar (natString e.sequence_id)),
     (YamlValue.scalar "entry_type", YamlValue.scalar (entryTypeName e.entry_type)),
     (YamlValue.scalar "timestamp", YamlValue.scalar (natString e.timestamp)),
     (YamlValue.scalar "scene_id", YamlValue.scalar e.scene_id),
     (YamlValue.scalar "frame_commitment",
       YamlValue.seq (e.frame_commitment.bytes.map
         (fun b => YamlValue.scalar (natString b)))),
     (YamlValue.scalar "merkle_root",
       YamlValue.seq (e.merkle_root.bytes.map
         (fun b => YamlValue.scalar (natString b))))]

theorem yamlOkSeq_scalars (l : List Nat) (f : Nat → String) :
    yamlOkSeq (l.map (fun b => YamlValue.scalar (f b))) = true := by
  induction l with
  | nil => rfl
  | cons b rest ih => simp [yamlOkSeq, yamlOk, ih]

/-- C10: the YAML serialization of a ledger entry succeeds for every entry:
the entry serializes as a mapping whose keys are all field-name scalars, so
the emitter's failure condition never arises and the `unwrap` in
`export_to_vault` cannot panic. -/
theorem yaml_serialization_total (e : LedgerEntry) :
    (serdeYamlToString e.toYamlValue).isSome = true := by
  unfold serdeYamlToString
  rw [if_pos ?hok]
  · rfl
  case hok =>
    show yamlOk e.toYamlValue = true
    simp [LedgerEntry.toYamlValue, yamlOk, yamlOkMap, yamlOkSeq_scalars]

/-- One rendered audit record of `export_to_vault`: the target file name and
the markdown file content. -/
structure VaultRecord where
  file_name : String
  content : String
deriving DecidableEq, Repr

instance : Inhabited VaultRecord := ⟨⟨"", ""⟩⟩

/-- The status line text of `export_to_vault` in
`src/corridor/stage4_merkle.rs`. -/
def statusText : EntryType → String
  | EntryType.Standard => "✅ Nominal"
  | EntryType.Refusal => "🚫 Sentinel Veto"

/-- The markdown content of one audit record, up to the hex-rendered root:
YAML front matter (the unwrapped serializer output), the heading with the
sequence id, the status line, the timestamp line, and the Merkle-proof
callout up to the `0x` marker.  From the format string of `export_to_vault`
in `src/corridor/stage4_merkle.rs`. -/
def contentHead (e : LedgerEntry) : String :=
  "---\n" ++ (serdeYamlToString e.toYamlValue).getD "" ++
  "---\n# Audit Entry: Sequence " ++ natString e.sequence_id ++
  "\n\n**Status:** " ++ statusText e.entry_type ++
  "\n**Timestamp:** " ++ natString e.timestamp ++
  "s\n\n> [!ABSTRACT] Merkle Proof\n> Root: `0x"

/-- The full markdown content of one audit record: the head, then the stored
`merkle_root` rendered by `hex::encode`, then the closing code quote. -/
def entryContent (e : LedgerEntry) : String :=
  contentHead e ++ hexEncode e.merkle_root.bytes ++ "`"

/-- The audit record rendered for one entry by `export_to_vault`. -/
def vaultRecord (e : LedgerEntry) : VaultRecord :=
  ⟨seqFileName e.sequence_id, entryContent e⟩

/-- The ordered sequence of external records written by `export_to_vault`
in `src/corridor/stage4_merkle.rs`: one record per ledger entry, in ledger
order. -/
def export_to_vault (l : WindchillLedger) : List VaultRecord :=
  l.entries.map vaultRecord

/-- Positional read of the record list, with a default out of range. -/
def recordAt (rs : List VaultRecord) (i : Nat) : VaultRecord := rs.getD i default

theorem recordAt_export (es : List LedgerEntry) (i : Nat) (hi : i < es.length) :
    recordAt (es.map vaultRecord) i = vaultRecord (entryAt es i) := by
  induction es generalizing i with
  | nil => simp at hi
  | cons e rest ih =>
      cases i with
      | zero => rfl
      | succ j => exact ih j (by simpa using hi)

/-- In a contiguous entry list the stored sequence id at position `i` is `i`
itself. -/
theorem sequence_id_entryAt (es : List LedgerEntry) (h : SeqContiguous es)
    (i : Nat) (hi : i < es.length) : (entryAt es i).sequence_id = i := by
  have h1 : (es.map (fun e => e.sequence_id)).getD i 0 =
      (List.range es.length).getD i 0 := by rw [h]
  rw [List.getD_eq_getElem?_getD, List.getD_eq_getElem?_getD,
    List.getElem?_map, List.getElem?_range hi] at h1
  have h2 : es[i]? = some (entryAt es i) := by
    rw [List.getElem?_eq_getElem hi]
    unfold entryAt
    rw [List.getD_eq_getElem?_getD, List.getElem?_eq_getElem hi]
    rfl
  rw [h2] at h1
  simpa using h1

/-- C7: the exporter writes exactly one external record per ledger entry, in
order; each record's key (its file name) is derived from that entry's
sequence id; distinct entries of a reachable ledger get distinct keys; and
each record's content renders the entry's stored `merkle_root` as a
lowercase hexadecimal string. -/
theorem export_one_record_per_entry (l : WindchillLedger) (hl : Reachable l) :
    (export_to_vault l).length = l.entries.length ∧
    (∀ i, i < l.entries.length →
      (recordAt (export_to_vault l) i).file_name =
        seqFileName (entryAt l.entries i).sequence_id ∧
      ∃ pre post : String,
        (recordAt (export_to_vault l) i).content =
          pre ++ hexEncode (entryAt l.entries i).merkle_root.bytes ++ post ∧
        ∀ c ∈ (hexEncode (entryAt l.entries i).merkle_root.bytes).data,
          isLowerHexDigit c = true) ∧
    (∀ i j, i < l.entries.length → j < l.entries.length → i ≠ j →
      (recordAt (export_to_vault l) i).file_name ≠
        (recordAt (export_to_vault l) j).file_name) := by
  have hseq := (reachable_invariant l hl).2
  refine ⟨by simp [export_to_vault], ?_, ?_⟩
  · intro i hi
    rw [show export_to_vault l = l.entries.map vaultRecord from rfl,
      recordAt_export l.entries i hi]
    refine ⟨rfl, contentHead (entryAt l.entries i), "`", rfl, ?_⟩
    exact hexEncode_lower _ (Digest.bytes_lt _)
  · intro i j hi hj hne heq
    rw [show export_to_vault l = l.entries.map vaultRecord from rfl,
      recordAt_export l.entries i hi, recordAt_export l.entries j hj] at heq
    have := seqFileName_injective _ _ heq
    rw [sequence_id_entryAt l.entries hseq i hi,
      sequence_id_entryAt l.entries hseq j hj] at this
    exact hne this

/-- Witness for C7: the export properties evaluated on a concrete two-entry
reachable ledger. -/
theorem export_one_record_per_entry_witness :
    (export_to_vault ((emptyLedger.append (commit [1]) "s1" EntryType.Standard 0).1.append
        (commit [2]) "s2" EntryType.Refusal 1).1).length =
      ((emptyLedger.append (commit [1]) "s1" EntryType.Standard 0).1.append
        (commit [2]) "s2" EntryType.Refusal 1).1.entries.length ∧
    (∀ i, i < ((emptyLedger.append (commit [1]) "s1" EntryType.Standard 0).1.append
        (commit [2]) "s2" EntryType.Refusal 1).1.entries.length →
      (recordAt (export_to_vault ((emptyLedger.append (commit [1]) "s1"
            EntryType.Standard 0).1.append
          (commit [2]) "s2" EntryType.Refusal 1).1) i).file_name =
        seqFileName (entryAt ((emptyLedger.append (commit [1]) "s1"
            EntryType.Standard 0).1.append
          (commit [2]) "s2" EntryType.Refusal 1).1.entries i).sequence_id ∧
      ∃ pre post : String,
        (recordAt (export_to_vault ((emptyLedger.append (commit [1]) "s1"
              EntryType.Standard 0).1.append
            (commit [2]) "s2" EntryType.Refusal 1).1) i).content =
          pre ++ hexEncode (entryAt ((emptyLedger.append (commit [1]) "s1"
              EntryType.Standard 0).1.append
            (commit [2]) "s2" EntryType.Refusal 1).1.entries i).merkle_root.bytes ++ post ∧
        ∀ c ∈ (hexEncode (entryAt ((emptyLedger.append (commit [1]) "s1"
              EntryType.Standard 0).1.append
            (commit [2]) "s2" EntryType.Refusal 1).1.entries i).merkle_root.bytes).data,
          isLowerHexDigit c = true) ∧
    (∀ i j, i < ((emptyLedger.append (commit [1]) "s1" EntryType.Standard 0).1.append
        (commit [2]) "s2" EntryType.Refusal 1).1.entries.length →
      j < ((emptyLedger.append (commit [1]) "s1" EntryType.Standard 0).1.append
        (commit [2]) "s2" EntryType.Refusal 1).1.entries.length → i ≠ j →
      (recordAt (export_to_vault ((emptyLedger.append (commit [1]) "s1"
            EntryType.Standard 0).1.append
          (commit [2]) "s2" EntryType.Refusal 1).1) i).file_name ≠
        (recordAt (export_to_vault ((emptyLedger.append (commit [1]) "s1"
            EntryType.Standard 0).1.append
          (commit [2]) "s2" EntryType.Refusal 1).1) j).file_name) :=
  export_one_record_per_entry _
    (Reachable.append _ _ _ _ _ (Reachable.append _ _ _ _ _ Reachable.empty))

/-- The external filesystem as the exporter sees it: the files written so
far, plus the environment's permission to create the vault directory and to
write each file (the sources of `std::io` errors). -/
structure FileSys where
  files : List (String × String)
  allowDir : Bool
  allowWrite : String → Bool

/-- Writing one file (the effect of `fs::write`). -/
def fsWrite (fs : FileSys) (name content : String) : FileSys :=
  { fs with files := fs.files ++ [(name, content)] }

/-- The only failure the exporter can propagate: an `std::io` error from
`create_dir_all` or `fs::write`. -/
inductive VaultFault where
  | ioFailure : VaultFault
deriving DecidableEq, Repr

/-- The mutable world threaded through an `export_to_vault` call: the ledger
(borrowed immutably in the source) and the filesystem. -/
structure World where
  ledger : WindchillLedger
  fs : FileSys

/-- The write loop of `export_to_vault`, threading the whole world state:
each entry's record is written in order, stopping at the first filesystem
fault, which is propagated by the `?` operator. -/
def exportLoop : List LedgerEntry → World → World × Except VaultFault Unit
  | [], w => (w, Except.ok ())
  | e :: rest, w =>
      let r := vaultRecord e
      if w.fs.allowWrite r.file_name then
        exportLoop rest ⟨w.ledger, fsWrite w.fs r.file_name r.content⟩
      else
        (w, Except.error VaultFault.ioFailure)

/-- The effectful run of `export_to_vault` in
`src/corridor/stage4_merkle.rs`: create the vault directory (propagating a
fault), then write one record per entry. -/
def export_to_vault_run (w : World) : World × Except VaultFault Unit :=
  if w.fs.allowDir then
    exportLoop w.ledger.entries w
  else
    (w, Except.error VaultFault.ioFailure)

theorem exportLoop_ledger (es : List LedgerEntry) (w : World) :
    ((exportLoop es w).1).ledger = w.ledger := by
  induction es generalizing w with
  | nil => rfl
  | cons e rest ih =>
      show ((if w.fs.allowWrite (vaultRecord e).file_name then
          exportLoop rest ⟨w.ledger, fsWrite w.fs (vaultRecord e).file_name
            (vaultRecord e).content⟩
        else (w, Except.error VaultFault.ioFailure)).1).ledger = w.ledger
      by_cases h : w.fs.allowWrite (vaultRecord e).file_name
      · rw [if_pos h, ih]
      · rw [if_neg h]

/-- C9: `export_to_vault` never modifies the ledger.  Whether the run ends
in success or in a propagated filesystem fault, the world it returns carries
the ledger unchanged: the same entry sequence, hence every field of every
entry exactly as before the call. -/
theorem export_preserves_ledger (w : World) :
    ((export_to_vault_run w).1).ledger = w.ledger ∧
    ((export_to_vault_run w).1).ledger.entries = w.ledger.entries := by
  have hmain : ((export_to_vault_run w).1).ledger = w.ledger := by
    unfold export_to_vault_run
    by_cases h : w.fs.allowDir
    · rw [if_pos h]
      exact exportLoop_ledger w.ledger.entries w
    · rw [if_neg h]
  exact ⟨hmain, by rw [hmain]⟩

end Windchill
